import Mathlib

/-!
Verification development for the analytics batch pipeline
(`src/analytics_interview.py`).

The embedding models JSON values as an inductive type, Python's
`json.loads`, `float` and `datetime.strptime` (format
`%Y-%m-%dT%H:%M:%S.%fZ`) as executable parsers, and the two pipeline
functions `parse_and_insert` and `aggregate_and_upsert` as pure
functions.  Stores are modelled as lists: the raw store receives a list
of write calls (each a list of documents); the aggregate store is a list
of records mutated by ordered bulk upserts.  Python numbers are modelled
as rationals and exceptions as an explicit error type: only
`json.JSONDecodeError` is caught by the ingestion loop, exactly as in
the source.
-/

namespace Analytics

mutual

/-- JSON values (model of the documents produced by `json.loads`). -/
inductive JVal : Type where
  | null : JVal
  | bool : Bool → JVal
  | num : ℚ → JVal
  | str : String → JVal
  | arr : JArr → JVal
  | obj : JObj → JVal
deriving DecidableEq

inductive JArr : Type where
  | nil : JArr
  | cons : JVal → JArr → JArr
deriving DecidableEq

inductive JObj : Type where
  | nil : JObj
  | cons : String → JVal → JObj → JObj
deriving DecidableEq

end

/-- Lookup of a key in a JSON object (Python `dict` lookup). -/
def objGet : JObj → String → Option JVal
  | .nil, _ => none
  | .cons k v tl, key => if k = key then some v else objGet tl key

/-- Insert-or-overwrite of a key, mirroring Python `dict` construction
where a duplicate key keeps the last value. -/
def objSet : JObj → String → JVal → JObj
  | .nil, k, v => .cons k v .nil
  | .cons k' v' tl, k, v =>
    if k' = k then .cons k' v tl else .cons k' v' (objSet tl k v)

/-- Python `dict.get(key, default)` on an object. -/
def objGetD (d : JObj) (k : String) (dflt : JVal) : JVal :=
  (objGet d k).getD dflt

/-- Append to a JSON array. -/
def arrSnoc : JArr → JVal → JArr
  | .nil, v => .cons v .nil
  | .cons x tl, v => .cons x (arrSnoc tl v)

/-- The Python exceptions relevant to the pipeline.  Only
`jsonDecodeError` is caught by `parse_and_insert`'s `except` clause. -/
inductive PyErr : Type where
  | jsonDecodeError : PyErr
  | valueError : PyErr
  | typeError : PyErr
  | attributeError : PyErr
deriving DecidableEq

/-- Skip JSON whitespace. -/
def skipWs : List Char → List Char
  | [] => []
  | c :: cs =>
    if c == ' ' || c == '\t' || c == '\n' || c == '\r' then skipWs cs else c :: cs

/-- Value of one hexadecimal digit. -/
def hexVal (c : Char) : Option Nat :=
  if '0' ≤ c ∧ c ≤ '9' then some (c.toNat - 48)
  else if 'a' ≤ c ∧ c ≤ 'f' then some (c.toNat - 87)
  else if 'A' ≤ c ∧ c ≤ 'F' then some (c.toNat - 55)
  else none

/-- Single-character JSON string escapes. -/
def escChar (e : Char) : Option Char :=
  if e == '"' then some '"'
  else if e == '\\' then some '\\'
  else if e == '/' then some '/'
  else if e == 'b' then some (Char.ofNat 8)
  else if e == 'f' then some (Char.ofNat 12)
  else if e == 'n' then some (Char.ofNat 10)
  else if e == 'r' then some (Char.ofNat 13)
  else if e == 't' then some (Char.ofNat 9)
  else none

/-- Parse the body of a JSON string literal after the opening quote,
returning the decoded characters and the remaining input. -/
def parseStrAux : Nat → List Char → Option (List Char × List Char)
  | 0, _ => none
  | _ + 1, [] => none
  | fuel + 1, c :: cs =>
    if c == '"' then some ([], cs)
    else if c == '\\' then
      match cs with
      | 'u' :: a :: b :: c2 :: d :: rest =>
        match hexVal a, hexVal b, hexVal c2, hexVal d with
        | some ha, some hb, some hc, some hd =>
          match parseStrAux fuel rest with
          | some (out, fin) =>
            some (Char.ofNat (((ha * 16 + hb) * 16 + hc) * 16 + hd) :: out, fin)
          | none => none
        | _, _, _, _ => none
      | e :: rest =>
        match escChar e with
        | some ch =>
          match parseStrAux fuel rest with
          | some (out, fin) => some (ch :: out, fin)
          | none => none
        | none => none
      | [] => none
    else if c.toNat < 32 then none
    else
      match parseStrAux fuel cs with
      | some (out, fin) => some (c :: out, fin)
      | none => none

/-- Numeric value of a digit string. -/
def natOfDigits (ds : List Char) : Nat :=
  ds.foldl (fun a c => a * 10 + (c.toNat - 48)) 0

/-- Rational value of sign, integer digits, fraction digits and signed
exponent digits. -/
def mkRat (neg : Bool) (ip fp : List Char) (eneg : Bool) (ep : List Char) : ℚ :=
  let mant : ℚ := (natOfDigits ip : ℚ) + (natOfDigits fp : ℚ) / (10 : ℚ) ^ fp.length
  let mant := if neg then -mant else mant
  let e := natOfDigits ep
  if eneg then mant / (10 : ℚ) ^ e else mant * (10 : ℚ) ^ e

/-- Parse the exponent digits of a JSON number. -/
def parseExpDigits (neg : Bool) (ip fp : List Char) (cs : List Char) :
    Option (JVal × List Char) :=
  let (eneg, cs1) := match cs with
    | '+' :: t => (false, t)
    | '-' :: t => (true, t)
    | _ => (false, cs)
  let ep := cs1.takeWhile Char.isDigit
  if ep.isEmpty then none
  else some (.num (mkRat neg ip fp eneg ep), cs1.dropWhile Char.isDigit)

/-- Parse the optional exponent part of a JSON number. -/
def parseExpPart (neg : Bool) (ip fp : List Char) (cs : List Char) :
    Option (JVal × List Char) :=
  match cs with
  | 'e' :: t => parseExpDigits neg ip fp t
  | 'E' :: t => parseExpDigits neg ip fp t
  | _ => some (.num (mkRat neg ip fp false []), cs)

/-- Parse a JSON number (strict JSON grammar: optional minus, no leading
zeros, fraction and exponent optional). -/
def parseNumber (cs : List Char) : Option (JVal × List Char) :=
  let (neg, cs1) := match cs with
    | '-' :: t => (true, t)
    | _ => (false, cs)
  let ip := cs1.takeWhile Char.isDigit
  let cs2 := cs1.dropWhile Char.isDigit
  if ip.isEmpty then none
  else if 2 ≤ ip.length && ip.headD '1' == '0' then none
  else
    match cs2 with
    | '.' :: t =>
      let fp := t.takeWhile Char.isDigit
      if fp.isEmpty then none
      else parseExpPart neg ip fp (t.dropWhile Char.isDigit)
    | _ => parseExpPart neg ip [] cs2

/-- Parsing obligations of the JSON decoder: a value, the members of an
object being read (with the members read so far), or the elements of an
array being read. -/
inductive PTask : Type where
  | val : PTask
  | members : JObj → PTask
  | elems : JArr → PTask

/-- Parse one JSON value (model of Python's recursive-descent JSON
decoder; the fuel argument only bounds recursion depth, it is always
given large enough). -/
def parseF : Nat → PTask → List Char → Option (JVal × List Char)
  | 0, _, _ => none
  | fuel + 1, .val, cs =>
    match skipWs cs with
    | [] => none
    | c :: cs' =>
      if c == '\x7b' then
        match skipWs cs' with
        | '\x7d' :: rest => some (.obj .nil, rest)
        | cs'' => parseF fuel (.members .nil) cs''
      else if c == '[' then
        match skipWs cs' with
        | ']' :: rest => some (.arr .nil, rest)
        | cs'' => parseF fuel (.elems .nil) cs''
      else if c == '"' then
        match parseStrAux (cs'.length + 1) cs' with
        | some (content, rest) => some (.str (String.mk content), rest)
        | none => none
      else if c == 't' then
        match cs' with
        | 'r' :: 'u' :: 'e' :: rest => some (.bool true, rest)
        | _ => none
      else if c == 'f' then
        match cs' with
        | 'a' :: 'l' :: 's' :: 'e' :: rest => some (.bool false, rest)
        | _ => none
      else if c == 'n' then
        match cs' with
        | 'u' :: 'l' :: 'l' :: rest => some (.null, rest)
        | _ => none
      else parseNumber (c :: cs')
  | fuel + 1, .members acc, cs =>
    match skipWs cs with
    | '"' :: cs' =>
      match parseStrAux (cs'.length + 1) cs' with
      | some (kcs, rest1) =>
        match skipWs rest1 with
        | ':' :: rest2 =>
          match parseF fuel .val rest2 with
          | some (v, rest3) =>
            match skipWs rest3 with
            | ',' :: rest4 => parseF fuel (.members (objSet acc (String.mk kcs) v)) rest4
            | '\x7d' :: rest4 => some (.obj (objSet acc (String.mk kcs) v), rest4)
            | _ => none
          | none => none
        | _ => none
      | none => none
    | _ => none
  | fuel + 1, .elems acc, cs =>
    match parseF fuel .val cs with
    | some (v, rest) =>
      match skipWs rest with
      | ',' :: rest2 => parseF fuel (.elems (arrSnoc acc v)) rest2
      | ']' :: rest2 => some (.arr (arrSnoc acc v), rest2)
      | _ => none
    | none => none

/-- Model of Python `json.loads` on a string: parse one JSON value and
require that only whitespace remains; any failure is a
`json.JSONDecodeError`. -/
def jsonLoads (s : String) : Except PyErr JVal :=
  match parseF (s.length + 8) .val s.toList with
  | some (v, rest) =>
    if (skipWs rest).isEmpty then .ok v else .error .jsonDecodeError
  | none => .error .jsonDecodeError

/-- Rational value used by the `float` model. -/
def floatRat (neg : Bool) (ip fp : List Char) (eneg : Bool) (ep : List Char) : ℚ :=
  mkRat neg ip fp eneg ep

/-- Exponent part of the `float` model. -/
def pyFloatExp (neg : Bool) (ip fp : List Char) (cs : List Char) : Option ℚ :=
  let (eneg, cs1) := match cs with
    | '+' :: t => (false, t)
    | '-' :: t => (true, t)
    | _ => (false, cs)
  let ep := cs1.takeWhile Char.isDigit
  if ep.isEmpty then none
  else if (skipWs (cs1.dropWhile Char.isDigit)).isEmpty then
    some (floatRat neg ip fp eneg ep)
  else none

/-- Model of Python `float(s)` on a string (decimal literals with
optional sign, fraction and exponent; the value is kept exact as a
rational).  A string outside this grammar raises `ValueError`, modelled
by `none`. -/
def pyFloat (s : String) : Option ℚ :=
  let cs := skipWs s.toList
  let (neg, cs1) := match cs with
    | '-' :: t => (true, t)
    | '+' :: t => (false, t)
    | _ => (false, cs)
  let ip := cs1.takeWhile Char.isDigit
  let cs2 := cs1.dropWhile Char.isDigit
  let (fp, cs3) : List Char × List Char :=
    match cs2 with
    | '.' :: t => (t.takeWhile Char.isDigit, t.dropWhile Char.isDigit)
    | _ => ([], cs2)
  if ip.isEmpty && fp.isEmpty then none
  else
    match cs3 with
    | 'e' :: t => pyFloatExp neg ip fp t
    | 'E' :: t => pyFloatExp neg ip fp t
    | _ => if (skipWs cs3).isEmpty then some (floatRat neg ip fp false []) else none

/-- Read one character of the timestamp format. -/
def expectChar (c : Char) (cs : List Char) : Option (List Char) :=
  match cs with
  | x :: rest => if x == c then some rest else none
  | [] => none

/-- Read exactly four digits (the `%Y` directive). -/
def getDigits4 (cs : List Char) : Option (Nat × List Char) :=
  match cs with
  | a :: b :: c :: d :: rest =>
    if a.isDigit && b.isDigit && c.isDigit && d.isDigit then
      some ((((a.toNat - 48) * 10 + (b.toNat - 48)) * 10 + (c.toNat - 48)) * 10
        + (d.toNat - 48), rest)
    else none
  | _ => none

/-- Read one or two digits (the `%m`, `%d`, `%H`, `%M`, `%S`
directives). -/
def getDigits12 (cs : List Char) : Option (Nat × List Char) :=
  match cs with
  | a :: b :: rest =>
    if a.isDigit then
      if b.isDigit then some ((a.toNat - 48) * 10 + (b.toNat - 48), rest)
      else some (a.toNat - 48, b :: rest)
    else none
  | [a] => if a.isDigit then some (a.toNat - 48, []) else none
  | [] => none

/-- Consume one to six fractional-second digits (the `%f` directive;
the value is discarded because `int(...)` truncates seconds). -/
def skipFrac (cs : List Char) : Option (List Char) :=
  let ds := (cs.takeWhile Char.isDigit).take 6
  if ds.isEmpty then none else some (cs.drop ds.length)

/-- Gregorian leap-year test. -/
def isLeap (y : Nat) : Bool :=
  y % 4 == 0 && (y % 100 != 0 || y % 400 == 0)

/-- Number of days in a month. -/
def daysInMonth (y m : Nat) : Nat :=
  if m == 2 then (if isLeap y then 29 else 28)
  else if m == 4 || m == 6 || m == 9 || m == 11 then 30
  else 31

/-- Days from 1970-01-01 to the given civil date (standard
days-from-civil algorithm). -/
def daysFromCivil (y m d : Nat) : Int :=
  let y' := if m ≤ 2 then y - 1 else y
  let era := y' / 400
  let yoe := y' % 400
  let mp := (m + 9) % 12
  let doy := (153 * mp + 2) / 5 + d - 1
  let doe := yoe * 365 + yoe / 4 - yoe / 100 + doy
  ((era * 146097 + doe : Nat) : Int) - 719468

/-- Read the `%Y-%m-%d` part of the timestamp format. -/
def parseDatePart (cs : List Char) : Option (Nat × Nat × Nat × List Char) :=
  match getDigits4 cs with
  | none => none
  | some (y, cs1) =>
    match expectChar '-' cs1 with
    | none => none
    | some cs2 =>
      match getDigits12 cs2 with
      | none => none
      | some (mo, cs3) =>
        match expectChar '-' cs3 with
        | none => none
        | some cs4 =>
          match getDigits12 cs4 with
          | none => none
          | some (d, cs5) => some (y, mo, d, cs5)

/-- Read the `%H:%M:%S` part of the timestamp format. -/
def parseClockPart (cs : List Char) : Option (Nat × Nat × Nat × List Char) :=
  match getDigits12 cs with
  | none => none
  | some (h, cs1) =>
    match expectChar ':' cs1 with
    | none => none
    | some cs2 =>
      match getDigits12 cs2 with
      | none => none
      | some (mi, cs3) =>
        match expectChar ':' cs3 with
        | none => none
        | some cs4 =>
          match getDigits12 cs4 with
          | none => none
          | some (sec, cs5) => some (h, mi, sec, cs5)

/-- Read the `.%fZ` tail of the timestamp format. -/
def parseFracZ (cs : List Char) : Option (List Char) :=
  match expectChar '.' cs with
  | none => none
  | some cs1 =>
    match skipFrac cs1 with
    | none => none
    | some cs2 => expectChar 'Z' cs2

/-- Model of
`int(datetime.strptime(s, "%Y-%m-%dT%H:%M:%S.%fZ").timestamp())`:
strict parse of the fixed ISO-8601 format to Unix epoch seconds
(interpreted as UTC).  A string outside the format, or with
out-of-range components, raises `ValueError`, modelled by `none`. -/
def parseTimestamp (s : String) : Option Int :=
  match parseDatePart s.toList with
  | none => none
  | some (y, mo, d, cs1) =>
    match expectChar 'T' cs1 with
    | none => none
    | some cs2 =>
      match parseClockPart cs2 with
      | none => none
      | some (h, mi, sec, cs3) =>
        match parseFracZ cs3 with
        | none => none
        | some cs4 =>
          if cs4.isEmpty && 1 ≤ y && 1 ≤ mo && mo ≤ 12 && 1 ≤ d
              && d ≤ daysInMonth y mo && h ≤ 23 && mi ≤ 59 && sec ≤ 59 then
            some (daysFromCivil y mo d * 86400 + (h * 3600 + mi * 60 + sec : Nat))
          else none

/-- The empty JSON object. -/
def emptyObj : JVal := .obj .nil

/-- Python `v.get(key, default)`: succeeds on a dict, raises
`AttributeError` on any other value. -/
def pyGetD (v : JVal) (k : String) (dflt : JVal) : Except PyErr JVal :=
  match v with
  | .obj d => .ok (objGetD d k dflt)
  | _ => .error .attributeError

/-- Python `v.get(key)` (default `None`, reported as `none`). -/
def pyGet (v : JVal) (k : String) : Except PyErr (Option JVal) :=
  match v with
  | .obj d => .ok (objGet d k)
  | _ => .error .attributeError

/-- Python truthiness of a JSON value. -/
def pyTruthy : JVal → Bool
  | .null => false
  | .bool b => b
  | .num q => decide (q ≠ 0)
  | .str s => decide (s ≠ "")
  | .arr a => decide (a ≠ .nil)
  | .obj o => decide (o ≠ .nil)

/-- The normalized record built by `parse_and_insert`
(source lines 56-67).  The identifier and string fields hold the JSON
values extracted from the input; `price` and `time` are numeric. -/
structure Document : Type where
  auctionId : JVal
  campaignId : JVal
  creativeId : JVal
  adgroupId : JVal
  userAgent : JVal
  site : JVal
  geo : JVal
  exchange : JVal
  price : ℚ
  time : Int
deriving DecidableEq

/-- Source line 31: `json.loads(data.get("bidRequestString", "{}"))`.
An absent field defaults to the literal string of an empty object; a
non-string value makes `json.loads` raise `TypeError`. -/
def nestedOf (d : JObj) : Except PyErr JVal :=
  match objGet d "bidRequestString" with
  | none => jsonLoads "\x7b\x7d"
  | some (.str s) => jsonLoads s
  | some _ => .error .typeError

/-- Source lines 35-39: `device.geo.country` with default
`"Others"` at every step. -/
def geoFirst (brs : JVal) : Except PyErr JVal := do
  let dev ← pyGetD brs "device" emptyObj
  let g ← pyGetD dev "geo" emptyObj
  pyGetD g "country" (.str "Others")

/-- Source lines 41-45: `device.ext.geo_criteria_id` with default
`"Others"` at every step. -/
def geoSecond (brs : JVal) : Except PyErr JVal := do
  let dev ← pyGetD brs "device" emptyObj
  let ext ← pyGetD dev "ext" emptyObj
  pyGetD ext "geo_criteria_id" (.str "Others")

/-- Source lines 35-45: the two-step geo fallback.  The second lookup
runs exactly when the first yields the string `"Others"`. -/
def resolveGeo (brs : JVal) : Except PyErr JVal := do
  let g ← geoFirst brs
  if g = .str "Others" then geoSecond brs else pure g

/-- Drop a pattern from the head of the input, if present. -/
def dropPat : List Char → List Char → Option (List Char)
  | [], cs => some cs
  | _ :: _, [] => none
  | p :: ps, c :: cs => if c == p then dropPat ps cs else none

/-- Left-to-right replacement of every non-overlapping occurrence of a
(non-empty) pattern, as in Python `str.replace`; the fuel argument is
always given as the input length, which suffices. -/
def replaceAux (pat new : List Char) : Nat → List Char → List Char
  | 0, cs => cs
  | _ + 1, [] => []
  | fuel + 1, c :: rest =>
    match dropPat pat (c :: rest) with
    | some rem => new ++ replaceAux pat new fuel rem
    | none => c :: replaceAux pat new fuel rest

/-- Model of Python `s.replace(pat, new)` for a non-empty pattern. -/
def pyReplace (s pat new : String) : String :=
  String.mk (replaceAux pat.toList new.toList s.length s.toList)

/-- Source line 47:
`float(data.get("winPrice", "0").replace("USD/1M", ""))`.
`.replace` on a non-string raises `AttributeError`; a residual outside
the float grammar raises `ValueError`. -/
def pyParsePrice : JVal → Except PyErr ℚ
  | .str s =>
    match pyFloat (pyReplace s "USD/1M" "") with
    | some q => .ok q
    | none => .error .valueError
  | _ => .error .attributeError

/-- Source lines 48-53: `bid_request_string.get("timestamp")`, then
`int(datetime.strptime(time, ...).timestamp()) if time else 0`.  A falsy
value (absent, `None`, empty string, zero, ...) yields `0`; a truthy
non-string raises `TypeError`; a truthy string outside the format raises
`ValueError`. -/
def pyParseTime (brs : JVal) : Except PyErr Int := do
  let ts ← pyGet brs "timestamp"
  match ts with
  | none => .ok 0
  | some v =>
    if pyTruthy v then
      match v with
      | .str s =>
        match parseTimestamp s with
        | some t => .ok t
        | none => .error .valueError
      | _ => .error .typeError
    else .ok 0

/-- Source lines 26-67: extraction and document construction from the
parsed outer object. -/
def normalizeData (d : JObj) : Except PyErr Document := do
  let auctionId := objGetD d "auctionId" (.str "NA")
  let campaignId := objGetD d "biddingMainAccount" (.str "NA")
  let creativeId := objGetD d "bidResponseCreativeName" (.str "NA")
  let adgroupId := objGetD d "biddingSubAccount" (.str "NA")
  let brs ← nestedOf d
  let userAgent ← pyGetD brs "userAgent" (.str "Others")
  let site ← pyGetD brs "url" (.str "Others")
  let geo ← resolveGeo brs
  let exchange ← pyGetD brs "exchange" (.str "Others")
  let price ← pyParsePrice (objGetD d "winPrice" (.str "0"))
  let time ← pyParseTime brs
  .ok { auctionId, campaignId, creativeId, adgroupId, userAgent, site,
        geo, exchange, price, time }

/-- The whole body of the per-line `try` block: `json.loads(line)`,
`.get` on the result (an `AttributeError` if it is not an object), then
extraction. -/
def lineBody (line : String) : Except PyErr Document := do
  let v ← jsonLoads line
  match v with
  | .obj d => normalizeData d
  | _ => .error .attributeError

/-- One line under the `try ... except json.JSONDecodeError: continue`
of source lines 23-75: a decode error (of either `json.loads`) is
caught and the line skipped (`ok none`); any other error propagates. -/
def normalizeLine (line : String) : Except PyErr (Option Document) :=
  match lineBody line with
  | .ok doc => .ok (some doc)
  | .error .jsonDecodeError => .ok none
  | .error e => .error e

/-- The ingestion loop of source lines 22-75: iterate the lines,
buffering normalized documents and flushing a write whenever the buffer
reaches `batchSize`.  The source performs no flush after the loop, so a
final partial buffer is discarded. -/
def runLines (batchSize : Nat) :
    List String → List (List Document) → List Document →
    Except PyErr (List (List Document))
  | [], writes, _ => .ok writes
  | l :: ls, writes, buf =>
    match normalizeLine l with
    | .error e => .error e
    | .ok none => runLines batchSize ls writes buf
    | .ok (some doc) =>
      if batchSize ≤ (buf ++ [doc]).length then
        runLines batchSize ls (writes ++ [buf ++ [doc]]) []
      else runLines batchSize ls writes (buf ++ [doc])

/-- Model of `parse_and_insert` (source lines 10-75): the input unit is
the list of decompressed lines; the result is the list of
`insert_many` calls made to the raw store, or the uncaught exception. -/
def parse_and_insert (lines : List String) (batchSize : Nat) :
    Except PyErr (List (List Document)) :=
  runLines batchSize lines [] []

/-- The composite grouping key of source lines 86-92. -/
structure AggKey : Type where
  campaignId : JVal
  creativeId : JVal
  adgroupId : JVal
  geo : JVal
  time : Int
deriving DecidableEq

/-- One aggregate bucket (also the shape of a record of the aggregate
store: the five key fields plus the four reduction fields). -/
structure AggBucket : Type where
  key : AggKey
  totalPrice : ℚ
  minPrice : ℚ
  maxPrice : ℚ
  totalCount : Nat
deriving DecidableEq

/-- Key of a raw document. -/
def docKey (doc : Document) : AggKey :=
  { campaignId := doc.campaignId, creativeId := doc.creativeId,
    adgroupId := doc.adgroupId, geo := doc.geo, time := doc.time }

/-- Minimum of a list of rationals (`$min` over a non-empty group). -/
def qMinList : List ℚ → ℚ
  | [] => 0
  | [x] => x
  | x :: y :: tl => min x (qMinList (y :: tl))

/-- Maximum of a list of rationals (`$max` over a non-empty group). -/
def qMaxList : List ℚ → ℚ
  | [] => 0
  | [x] => x
  | x :: y :: tl => max x (qMaxList (y :: tl))

/-- The bucket computed for one group key (`$sum`, `$min`, `$max` and
`$sum: 1` over the documents with that key). -/
def mkBucket (docs : List Document) (k : AggKey) : AggBucket :=
  let grp := docs.filter (fun doc => docKey doc == k)
  { key := k,
    totalPrice := (grp.map Document.price).sum,
    minPrice := qMinList (grp.map Document.price),
    maxPrice := qMaxList (grp.map Document.price),
    totalCount := grp.length }

/-- Model of the `$group`/`$project` pipeline of source lines 86-120:
one bucket per distinct composite key of the raw store's contents. -/
def aggregate (docs : List Document) : List AggBucket :=
  ((docs.map docKey).dedup).map (mkBucket docs)

/-- Overwrite the four numeric fields of a stored record with the
bucket's values (the `$set` of source lines 132-139). -/
def setVals (b r : AggBucket) : AggBucket :=
  { key := r.key, totalPrice := b.totalPrice, minPrice := b.minPrice,
    maxPrice := b.maxPrice, totalCount := b.totalCount }

/-- One `UpdateOne(filter, {"$set": ...}, upsert=True)` against the
aggregate store: update the first record matching the composite key, or
insert key plus numeric fields when no record matches. -/
def applyUpdateOne (b : AggBucket) : List AggBucket → List AggBucket
  | [] => [b]
  | r :: rs => if r.key = b.key then setVals b r :: rs else r :: applyUpdateOne b rs

/-- Ordered `bulk_write` of the upsert operations (source line 144). -/
def bulkWrite (ops : List AggBucket) (store : List AggBucket) : List AggBucket :=
  ops.foldl (fun st b => applyUpdateOne b st) store

/-- Model of `aggregate_and_upsert` (source lines 78-144): aggregate
the source collection and bulk-upsert every bucket into the target
collection.  An empty bucket list performs no operation. -/
def aggregate_and_upsert (src : List Document) (tgt : List AggBucket) :
    List AggBucket :=
  bulkWrite (aggregate src) tgt

/-- Number of records of the aggregate store holding a given key. -/
def countKey (k : AggKey) (store : List AggBucket) : Nat :=
  (store.filter (fun r => r.key == k)).length

/-- First record of the aggregate store holding a given key. -/
def findKey (k : AggKey) (store : List AggBucket) : Option AggBucket :=
  store.find? (fun r => r.key == k)

/-- The record produced when every optional source field is absent. -/
def defaultDocument : Document :=
  { auctionId := .str "NA", campaignId := .str "NA", creativeId := .str "NA",
    adgroupId := .str "NA", userAgent := .str "Others", site := .str "Others",
    geo := .str "Others", exchange := .str "Others", price := 0, time := 0 }

/-- The record's time field when the line yields a record. -/
def lineTime (line : String) : Option Int :=
  match normalizeLine line with
  | .ok (some doc) => some doc.time
  | _ => none

/-- Inversion of a successful `Except` bind. -/
theorem bind_ok_iff {α β : Type} (m : Except PyErr α) (k : α → Except PyErr β)
    (r : β) : (m >>= k) = .ok r ↔ ∃ a, m = .ok a ∧ k a = .ok r := by
  cases m <;> simp [Bind.bind, Except.bind]

/-- Binding an error propagates it. -/
theorem error_bind {α β : Type} (e : PyErr) (k : α → Except PyErr β) :
    ((Except.error e : Except PyErr α) >>= k) = .error e := rfl

/-- Binding a success applies the continuation. -/
theorem ok_bind {α β : Type} (a : α) (k : α → Except PyErr β) :
    ((Except.ok a : Except PyErr α) >>= k) = k a := rfl

/-- The only error `jsonLoads` produces is a decode error. -/
theorem jsonLoads_error (l : String) (e : PyErr) (h : jsonLoads l = .error e) :
    e = .jsonDecodeError := by
  unfold jsonLoads at h
  split at h
  · split at h
    · cases h
    · exact (Except.error.inj h).symm
  · exact (Except.error.inj h).symm

/-- The default win-price string parses to zero. -/
theorem floatRat_zero : floatRat false ['0'] [] false [] = 0 := by
  simp [floatRat, mkRat, show natOfDigits ['0'] = 0 from rfl,
    show natOfDigits [] = 0 from rfl]

/-- A line skipped by the `except` clause leaves the whole ingestion run
unchanged: same writes, same buffer evolution for all other lines. -/
theorem runLines_skip (B : Nat) (l : String) (h : normalizeLine l = .ok none)
    (pre post : List String) :
    ∀ writes buf, runLines B (pre ++ l :: post) writes buf
      = runLines B (pre ++ post) writes buf := by
  induction pre with
  | nil =>
    intro writes buf
    simp [runLines, h]
  | cons x xs ih =>
    intro writes buf
    simp only [List.cons_append, runLines]
    cases hx : normalizeLine x with
    | error e => rfl
    | ok od =>
      cases od with
      | none => exact ih _ _
      | some doc =>
        dsimp only
        split
        · exact ih _ _
        · exact ih _ _

/-- Skipped lines do not change the result of `parse_and_insert`. -/
theorem parse_and_insert_skip (B : Nat) (l : String)
    (h : normalizeLine l = .ok none) (pre post : List String) :
    parse_and_insert (pre ++ l :: post) B = parse_and_insert (pre ++ post) B :=
  runLines_skip B l h pre post [] []

/-- C1: the spec requires the final partial buffer to be flushed, but
the source contains no flush after the loop, so with three valid lines
(each the empty JSON object) and batch size 2 the raw store receives a
single write of two documents — one write call instead of the claimed
two, two documents instead of the claimed three: the third normalized
record is silently dropped. -/
theorem C1_final_partial_batch_dropped :
    parse_and_insert ["\x7b\x7d", "\x7b\x7d", "\x7b\x7d"] 2
      = .ok [[defaultDocument, defaultDocument]] := by
  have h1 : parse_and_insert ["\x7b\x7d", "\x7b\x7d", "\x7b\x7d"] 2
      = .ok [[{ defaultDocument with price := floatRat false ['0'] [] false [] },
              { defaultDocument with price := floatRat false ['0'] [] false [] }]] := rfl
  rw [h1, floatRat_zero]
  rfl

/-- C7: a line whose outer JSON does not parse is skipped: it yields no
document, does not abort the run, does not count toward the batch
threshold, and the result on any surrounding lines is exactly the result
without that line. -/
theorem C7_malformed_line_skipped (l : String) (e : PyErr)
    (h : jsonLoads l = .error e) (pre post : List String) (B : Nat) :
    normalizeLine l = .ok none
    ∧ parse_and_insert (pre ++ l :: post) B = parse_and_insert (pre ++ post) B := by
  have he := jsonLoads_error l e h
  subst he
  have hb : lineBody l = .error .jsonDecodeError := by
    unfold lineBody
    rw [h]
    rfl
  have hn : normalizeLine l = .ok none := by
    unfold normalizeLine
    rw [hb]
  exact ⟨hn, parse_and_insert_skip B l hn pre post⟩

/-- Witness for C7 at a concrete malformed line. -/
theorem C7_malformed_line_skipped_witness :
    jsonLoads "notjson" = .error .jsonDecodeError
    ∧ parse_and_insert ["notjson", "\x7b\x7d"] 1 = parse_and_insert ["\x7b\x7d"] 1 :=
  ⟨rfl, (C7_malformed_line_skipped "notjson" .jsonDecodeError rfl [] ["\x7b\x7d"] 1).2⟩

/-- C8 counterexample: the claim says a present-but-empty
`bidRequestString` is treated as the empty JSON object and the record is
still produced; in the code `json.loads("")` raises a decode error,
which the `except` clause catches, so the line is skipped and no
document at all reaches the raw store. -/
theorem C8_empty_string_counterexample :
    normalizeLine "\x7b\"bidRequestString\": \"\"\x7d" = .ok none
    ∧ parse_and_insert ["\x7b\"bidRequestString\": \"\"\x7d"] 1 = .ok [] :=
  ⟨rfl, rfl⟩

/-- C9 counterexample: a nested timestamp that is present but the empty
string is not in the ISO-8601 format, yet the line is neither aborted
nor skipped: Python truthiness treats the empty string like an absent
timestamp, the record is produced and its time field defaults to 0. -/
theorem C9_empty_timestamp_counterexample :
    parseTimestamp "" = none
    ∧ normalizeLine "\x7b\"bidRequestString\": \"\x7b\\\"timestamp\\\": \\\"\\\"\x7d\"\x7d"
        = .ok (some defaultDocument)
    ∧ lineTime "\x7b\"bidRequestString\": \"\x7b\\\"timestamp\\\": \\\"\\\"\x7d\"\x7d"
        = some 0 := by
  refine ⟨rfl, ?_, rfl⟩
  have h1 : normalizeLine "\x7b\"bidRequestString\": \"\x7b\\\"timestamp\\\": \\\"\\\"\x7d\"\x7d"
      = .ok (some { defaultDocument with price := floatRat false ['0'] [] false [] }) := rfl
  rw [h1, floatRat_zero]
  rfl

/-- C10: a present, non-empty `bidRequestString` that is not valid JSON
makes the nested `json.loads` raise a decode error, which the shared
`except` clause catches exactly as for a malformed envelope: no record,
no propagation, and the surrounding lines are processed as if the line
were absent. -/
theorem C10_nested_malformed_skipped (l : String) (d : JObj) (s : String)
    (e : PyErr) (hl : jsonLoads l = .ok (.obj d))
    (hb : objGet d "bidRequestString" = some (.str s))
    (hs : s ≠ "") (hj : jsonLoads s = .error e)
    (pre post : List String) (B : Nat) :
    normalizeLine l = .ok none
    ∧ parse_and_insert (pre ++ l :: post) B = parse_and_insert (pre ++ post) B := by
  have he := jsonLoads_error s e hj
  subst he
  have hnested : nestedOf d = .error .jsonDecodeError := by
    unfold nestedOf
    rw [hb]
    exact hj
  have hdata : normalizeData d = .error .jsonDecodeError := by
    simp only [normalizeData, hnested, error_bind]
  have hbody : lineBody l = .error .jsonDecodeError := by
    unfold lineBody
    rw [hl, ok_bind]
    exact hdata
  have hn : normalizeLine l = .ok none := by
    unfold normalizeLine
    rw [hbody]
  exact ⟨hn, parse_and_insert_skip B l hn pre post⟩

/-- A line whose envelope parses to an object is processed by
`normalizeData`. -/
theorem lineBody_obj (l : String) (d : JObj) (hl : jsonLoads l = .ok (.obj d)) :
    lineBody l = normalizeData d := by
  unfold lineBody
  rw [hl, ok_bind]

/-- A line that yields a record ran the whole body successfully. -/
theorem normalizeLine_ok_some (l : String) (r : Document)
    (h : normalizeLine l = .ok (some r)) : lineBody l = .ok r := by
  unfold normalizeLine at h
  cases hlb : lineBody l with
  | ok doc =>
    rw [hlb] at h
    simp at h
    rw [h]
  | error e =>
    rw [hlb] at h
    cases e <;> simp at h

/-- Inversion of a successful `normalizeData` run: every extraction step
succeeded and the record is assembled from the extracted values. -/
theorem normalizeData_ok (d : JObj) (r : Document)
    (h : normalizeData d = .ok r) :
    ∃ brs ua st g ex p t,
      nestedOf d = .ok brs
      ∧ pyGetD brs "userAgent" (.str "Others") = .ok ua
      ∧ pyGetD brs "url" (.str "Others") = .ok st
      ∧ resolveGeo brs = .ok g
      ∧ pyGetD brs "exchange" (.str "Others") = .ok ex
      ∧ pyParsePrice (objGetD d "winPrice" (.str "0")) = .ok p
      ∧ pyParseTime brs = .ok t
      ∧ r = { auctionId := objGetD d "auctionId" (.str "NA"),
              campaignId := objGetD d "biddingMainAccount" (.str "NA"),
              creativeId := objGetD d "bidResponseCreativeName" (.str "NA"),
              adgroupId := objGetD d "biddingSubAccount" (.str "NA"),
              userAgent := ua, site := st, geo := g, exchange := ex,
              price := p, time := t } := by
  unfold normalizeData at h
  rw [bind_ok_iff] at h
  obtain ⟨brs, hbrs, h⟩ := h
  rw [bind_ok_iff] at h
  obtain ⟨ua, hua, h⟩ := h
  rw [bind_ok_iff] at h
  obtain ⟨st, hst, h⟩ := h
  rw [bind_ok_iff] at h
  obtain ⟨g, hg, h⟩ := h
  rw [bind_ok_iff] at h
  obtain ⟨ex, hex, h⟩ := h
  rw [bind_ok_iff] at h
  obtain ⟨p, hp, h⟩ := h
  rw [bind_ok_iff] at h
  obtain ⟨t, ht, h⟩ := h
  exact ⟨brs, ua, st, g, ex, p, t, hbrs, hua, hst, hg, hex, hp, ht,
    (Except.ok.inj h).symm⟩

/-- C5: for every successfully normalized line, the record's geo is the
two-step fallback: it equals the `device.geo.country` lookup whenever
that yields anything other than the string `"Others"`, and exactly when
that lookup yields `"Others"` (including when absent, since every step
defaults to `"Others"`) it equals the `device.ext.geo_criteria_id`
lookup instead. -/
theorem C5_geo_fallback (l : String) (d : JObj) (r : Document)
    (hl : jsonLoads l = .ok (.obj d)) (hr : normalizeLine l = .ok (some r)) :
    ∃ brs, nestedOf d = .ok brs
      ∧ (geoFirst brs = .ok (.str "Others") → geoSecond brs = .ok r.geo)
      ∧ (∀ g, geoFirst brs = .ok g → g ≠ .str "Others" → r.geo = g) := by
  have hnd : normalizeData d = .ok r :=
    (lineBody_obj l d hl).symm.trans (normalizeLine_ok_some l r hr)
  obtain ⟨brs, ua, st, g, ex, p, t, hbrs, _, _, hg, _, _, _, hrEq⟩ :=
    normalizeData_ok d r hnd
  have hrg : r.geo = g := by rw [hrEq]
  unfold resolveGeo at hg
  rw [bind_ok_iff] at hg
  obtain ⟨g1, hg1, hif⟩ := hg
  refine ⟨brs, hbrs, ?_, ?_⟩
  · intro hfirst
    have : g1 = .str "Others" := Except.ok.inj (hg1.symm.trans hfirst)
    subst this
    rw [if_pos rfl] at hif
    rw [hrg]
    exact hif
  · intro g' hg' hne
    have hgg : g1 = g' := Except.ok.inj (hg1.symm.trans hg')
    subst hgg
    rw [if_neg hne] at hif
    rw [hrg]
    exact (Except.ok.inj hif).symm

/-- Input line of the C5 witness: `device.geo.country` absent,
`device.ext.geo_criteria_id` equal to `"G1"`. -/
def c5Line : String :=
  "\x7b\"bidRequestString\": \"\x7b\\\"device\\\": \x7b\\\"ext\\\": \x7b\\\"geo_criteria_id\\\": \\\"G1\\\"\x7d\x7d\x7d\"\x7d"

/-- The parsed outer object of the C5 witness line. -/
def c5Obj : JObj :=
  .cons "bidRequestString"
    (.str "\x7b\"device\": \x7b\"ext\": \x7b\"geo_criteria_id\": \"G1\"\x7d\x7d\x7d")
    .nil

/-- The parsed nested document of the C5 witness line. -/
def c5Brs : JVal :=
  .obj (.cons "device"
    (.obj (.cons "ext"
      (.obj (.cons "geo_criteria_id" (.str "G1") .nil)) .nil)) .nil)

/-- The record produced for the C5 witness line. -/
def c5Doc : Document :=
  { defaultDocument with
    geo := JVal.str "G1"
    price := floatRat false ['0'] [] false [] }

/-- Witness for C5 at a line whose nested document has no
`device.geo.country` but a `device.ext.geo_criteria_id`: the record's
geo comes from the second lookup. -/
theorem C5_geo_fallback_witness :
    geoSecond c5Brs = .ok (.str "G1") := by
  obtain ⟨brs, hbrs, hfb, _⟩ := C5_geo_fallback c5Line c5Obj c5Doc rfl rfl
  have hb : brs = c5Brs :=
    (Except.ok.inj ((show nestedOf c5Obj = .ok c5Brs from rfl).symm.trans hbrs)).symm
  subst hb
  have : (c5Doc.geo : JVal) = .str "G1" := rfl
  rw [← this]
  exact hfb rfl

/-- C6: a line whose outer envelope parses to an object in which every
source field used by the extraction is absent still normalizes
successfully, and the resulting record carries exactly the documented
defaults: `"NA"` for the four identifiers, `"Others"` for userAgent,
site, geo and exchange, price `0` and time `0`.  Since the record type
is a structure, every one of the ten fields is always present. -/
theorem C6_default_completeness (l : String) (d : JObj)
    (hl : jsonLoads l = .ok (.obj d))
    (h1 : objGet d "auctionId" = none)
    (h2 : objGet d "biddingMainAccount" = none)
    (h3 : objGet d "bidResponseCreativeName" = none)
    (h4 : objGet d "biddingSubAccount" = none)
    (h5 : objGet d "bidRequestString" = none)
    (h6 : objGet d "winPrice" = none) :
    normalizeLine l = .ok (some defaultDocument) := by
  have ha : objGetD d "auctionId" (.str "NA") = .str "NA" := by
    unfold objGetD
    rw [h1]
    rfl
  have hb : objGetD d "biddingMainAccount" (.str "NA") = .str "NA" := by
    unfold objGetD
    rw [h2]
    rfl
  have hc : objGetD d "bidResponseCreativeName" (.str "NA") = .str "NA" := by
    unfold objGetD
    rw [h3]
    rfl
  have hd : objGetD d "biddingSubAccount" (.str "NA") = .str "NA" := by
    unfold objGetD
    rw [h4]
    rfl
  have hw : objGetD d "winPrice" (.str "0") = .str "0" := by
    unfold objGetD
    rw [h6]
    rfl
  have hbrs : nestedOf d = .ok emptyObj := by
    unfold nestedOf
    rw [h5]
    rfl
  have hdata : normalizeData d
      = .ok { defaultDocument with price := floatRat false ['0'] [] false [] } := by
    simp only [normalizeData, hbrs, ok_bind, ha, hb, hc, hd, hw]
    rfl
  have hnl : normalizeLine l = .ok (some
      { defaultDocument with price := floatRat false ['0'] [] false [] }) := by
    unfold normalizeLine
    rw [lineBody_obj l d hl, hdata]
  rw [hnl, floatRat_zero]
  rfl

/-- Witness for C6 at the empty-object line. -/
theorem C6_default_completeness_witness :
    normalizeLine "\x7b\x7d" = .ok (some defaultDocument) :=
  C6_default_completeness "\x7b\x7d" .nil rfl rfl rfl rfl rfl rfl rfl

/-- C8 (amended): when `bidRequestString` is absent the nested document
defaults to the empty JSON object and a produced record carries
`"Others"` for userAgent, site and exchange; when `bidRequestString` is
present but the empty string, `json.loads("")` raises a decode error,
which the `except` clause catches, so the line is skipped — no record is
produced, but no failure propagates either. -/
theorem C8_nested_default_behavior (d : JObj) :
    (objGet d "bidRequestString" = none →
      nestedOf d = .ok emptyObj
      ∧ ∀ r, normalizeData d = .ok r →
          r.userAgent = .str "Others" ∧ r.site = .str "Others"
          ∧ r.exchange = .str "Others")
    ∧ (objGet d "bidRequestString" = some (.str "") →
      normalizeData d = .error .jsonDecodeError
      ∧ ∀ l, jsonLoads l = .ok (.obj d) → normalizeLine l = .ok none) := by
  constructor
  · intro habs
    have hbrs : nestedOf d = .ok emptyObj := by
      unfold nestedOf
      rw [habs]
      rfl
    refine ⟨hbrs, ?_⟩
    intro r hr
    obtain ⟨brs, ua, st, g, ex, p, t, hbrs2, hua, hst, _, hex, _, _, hrEq⟩ :=
      normalizeData_ok d r hr
    have hbe : brs = emptyObj := Except.ok.inj (hbrs2.symm.trans hbrs)
    subst hbe
    have hua2 : ua = .str "Others" := Except.ok.inj hua.symm
    have hst2 : st = .str "Others" := Except.ok.inj hst.symm
    have hex2 : ex = .str "Others" := Except.ok.inj hex.symm
    rw [hrEq, hua2, hst2, hex2]
    exact ⟨rfl, rfl, rfl⟩
  · intro hemp
    have hnested : nestedOf d = .error .jsonDecodeError := by
      unfold nestedOf
      rw [hemp]
      rfl
    have hdata : normalizeData d = .error .jsonDecodeError := by
      simp only [normalizeData, hnested, error_bind]
    refine ⟨hdata, ?_⟩
    intro l hl
    have hbody : lineBody l = .error .jsonDecodeError :=
      (lineBody_obj l d hl).trans hdata
    unfold normalizeLine
    rw [hbody]

/-- Witness for C8: the absent case yields the empty nested object, and
the concrete empty-string line is skipped without propagation. -/
theorem C8_nested_default_behavior_witness :
    nestedOf JObj.nil = .ok emptyObj
    ∧ normalizeLine "\x7b\"bidRequestString\": \"\"\x7d" = .ok none :=
  ⟨((C8_nested_default_behavior .nil).1 rfl).1,
   ((C8_nested_default_behavior (.cons "bidRequestString" (.str "") .nil)).2
      rfl).2 "\x7b\"bidRequestString\": \"\"\x7d" rfl⟩

/-- C9 (amended): a win-price string whose `USD/1M`-stripped residual is
not a float literal raises `ValueError`, which is not caught: the line
is neither skipped nor defaulted and the whole `parse_and_insert` run
aborts with the error.  A present nested timestamp that is truthy (in
particular non-empty) and not in the fixed ISO-8601 format equally
raises `ValueError` with the same propagation.  (An empty-string
timestamp is falsy and is instead treated like an absent one — see the
counterexample.) -/
theorem C9_hard_parse_failures (d : JObj) (brs ua st g ex : JVal)
    (hbrs : nestedOf d = .ok brs)
    (hua : pyGetD brs "userAgent" (.str "Others") = .ok ua)
    (hst : pyGetD brs "url" (.str "Others") = .ok st)
    (hgeo : resolveGeo brs = .ok g)
    (hex : pyGetD brs "exchange" (.str "Others") = .ok ex) :
    (pyParsePrice (objGetD d "winPrice" (.str "0")) = .error .valueError →
      normalizeData d = .error .valueError)
    ∧ (∀ p : ℚ, pyParsePrice (objGetD d "winPrice" (.str "0")) = .ok p →
        pyParseTime brs = .error .valueError →
        normalizeData d = .error .valueError)
    ∧ (∀ s : String, pyGet brs "timestamp" = .ok (some (.str s)) → s ≠ "" →
        parseTimestamp s = none → pyParseTime brs = .error .valueError)
    ∧ (∀ (l : String) (B : Nat), jsonLoads l = .ok (.obj d) →
        normalizeData d = .error .valueError →
        parse_and_insert [l] B = .error .valueError) := by
  refine ⟨?_, ?_, ?_, ?_⟩
  · intro hp
    simp only [normalizeData, hbrs, hua, hst, hgeo, hex, hp, ok_bind, error_bind]
  · intro p hp ht
    simp only [normalizeData, hbrs, hua, hst, hgeo, hex, hp, ht, ok_bind, error_bind]
  · intro s hts hs hp
    unfold pyParseTime
    rw [hts, ok_bind]
    have htr : pyTruthy (.str s) = true := by
      simp [pyTruthy, hs]
    simp only [htr, if_true, hp]
  · intro l B hl hnd
    have hbody : lineBody l = .error .valueError :=
      (lineBody_obj l d hl).trans hnd
    have hnl : normalizeLine l = .error .valueError := by
      unfold normalizeLine
      rw [hbody]
    unfold parse_and_insert runLines
    rw [hnl]

/-- Witness for C9 at a concrete line whose win price has a non-numeric
residual: the run aborts with `ValueError`. -/
theorem C9_hard_parse_failures_witness :
    normalizeData (JObj.cons "winPrice" (.str "abc") .nil) = .error .valueError
    ∧ parse_and_insert ["\x7b\"winPrice\": \"abc\"\x7d"] 5 = .error .valueError := by
  have h := C9_hard_parse_failures (JObj.cons "winPrice" (.str "abc") .nil)
    emptyObj (.str "Others") (.str "Others") (.str "Others") (.str "Others")
    rfl rfl rfl rfl rfl
  have h1 := h.1 rfl
  exact ⟨h1, h.2.2.2 "\x7b\"winPrice\": \"abc\"\x7d" 5 rfl h1⟩

/-- The list minimum is a lower bound. -/
theorem qMinList_le (xs : List ℚ) : ∀ x ∈ xs, qMinList xs ≤ x := by
  induction xs with
  | nil =>
    intro x hx
    cases hx
  | cons a tl ih =>
    intro x hx
    cases tl with
    | nil =>
      rcases List.mem_cons.mp hx with h | h
      · subst h
        exact le_refl x
      · cases h
    | cons b tl2 =>
      have he : qMinList (a :: b :: tl2) = min a (qMinList (b :: tl2)) := rfl
      rcases List.mem_cons.mp hx with h | h
      · subst h
        rw [he]
        exact min_le_left _ _
      · rw [he]
        exact le_trans (min_le_right _ _) (ih x h)

/-- The list minimum of a non-empty list is attained. -/
theorem qMinList_mem (xs : List ℚ) (h : xs ≠ []) : qMinList xs ∈ xs := by
  induction xs with
  | nil => exact absurd rfl h
  | cons a tl ih =>
    cases tl with
    | nil => exact List.mem_singleton_self a
    | cons b tl2 =>
      have he : qMinList (a :: b :: tl2) = min a (qMinList (b :: tl2)) := rfl
      rw [he]
      rcases le_total a (qMinList (b :: tl2)) with hle | hle
      · rw [min_eq_left hle]
        exact List.mem_cons_self a _
      · rw [min_eq_right hle]
        exact List.mem_cons_of_mem a (ih (by simp))

/-- The list maximum is an upper bound. -/
theorem le_qMaxList (xs : List ℚ) : ∀ x ∈ xs, x ≤ qMaxList xs := by
  induction xs with
  | nil =>
    intro x hx
    cases hx
  | cons a tl ih =>
    intro x hx
    cases tl with
    | nil =>
      rcases List.mem_cons.mp hx with h | h
      · subst h
        exact le_refl x
      · cases h
    | cons b tl2 =>
      have he : qMaxList (a :: b :: tl2) = max a (qMaxList (b :: tl2)) := rfl
      rcases List.mem_cons.mp hx with h | h
      · subst h
        rw [he]
        exact le_max_left _ _
      · rw [he]
        exact le_trans (ih x h) (le_max_right _ _)

/-- The list maximum of a non-empty list is attained. -/
theorem qMaxList_mem (xs : List ℚ) (h : xs ≠ []) : qMaxList xs ∈ xs := by
  induction xs with
  | nil => exact absurd rfl h
  | cons a tl ih =>
    cases tl with
    | nil => exact List.mem_singleton_self a
    | cons b tl2 =>
      have he : qMaxList (a :: b :: tl2) = max a (qMaxList (b :: tl2)) := rfl
      rw [he]
      rcases le_total a (qMaxList (b :: tl2)) with hle | hle
      · rw [max_eq_right hle]
        exact List.mem_cons_of_mem a (ih (by simp))
      · rw [max_eq_left hle]
        exact List.mem_cons_self a _

/-- The keys of the aggregation result are the distinct keys of the raw
store. -/
theorem agg_keys (docs : List Document) :
    (aggregate docs).map AggBucket.key = (docs.map docKey).dedup := by
  unfold aggregate
  rw [List.map_map]
  have h : (AggBucket.key ∘ mkBucket docs) = id := by
    funext k
    rfl
  rw [h, List.map_id]

/-- C2: the Aggregator emits one bucket per distinct composite key
(their keys are exactly the distinct keys of the raw store, without
duplicates), and each bucket's totalPrice is the sum of the prices of
the records with that key, totalCount their number, minPrice a lower
bound on those prices that is attained, and maxPrice an upper bound
that is attained. -/
theorem C2_aggregate_buckets (docs : List Document) :
    ((aggregate docs).map AggBucket.key).Nodup
    ∧ (∀ k : AggKey, k ∈ (aggregate docs).map AggBucket.key ↔ k ∈ docs.map docKey)
    ∧ ∀ b ∈ aggregate docs,
        b.totalPrice
            = ((docs.filter (fun doc => docKey doc == b.key)).map Document.price).sum
        ∧ b.totalCount = (docs.filter (fun doc => docKey doc == b.key)).length
        ∧ (∀ doc ∈ docs, docKey doc = b.key →
            b.minPrice ≤ doc.price ∧ doc.price ≤ b.maxPrice)
        ∧ (∃ doc ∈ docs, docKey doc = b.key ∧ doc.price = b.minPrice)
        ∧ (∃ doc ∈ docs, docKey doc = b.key ∧ doc.price = b.maxPrice) := by
  refine ⟨?_, ?_, ?_⟩
  · rw [agg_keys]
    exact (docs.map docKey).nodup_dedup
  · intro k
    rw [agg_keys]
    exact List.mem_dedup
  · intro b hb
    obtain ⟨k, hk, hbk⟩ := List.mem_map.mp hb
    subst hbk
    have hkey : (mkBucket docs k).key = k := rfl
    rw [hkey]
    have hmin : (mkBucket docs k).minPrice
        = qMinList ((docs.filter (fun doc => docKey doc == k)).map Document.price) := rfl
    have hmax : (mkBucket docs k).maxPrice
        = qMaxList ((docs.filter (fun doc => docKey doc == k)).map Document.price) := rfl
    obtain ⟨doc0, hdoc0, hkey0⟩ := List.mem_map.mp (List.mem_dedup.mp hk)
    have hgrp0 : doc0 ∈ docs.filter (fun doc => docKey doc == k) :=
      List.mem_filter.mpr ⟨hdoc0, by simp [hkey0]⟩
    have hne : (docs.filter (fun doc => docKey doc == k)).map Document.price ≠ [] :=
      List.ne_nil_of_mem (List.mem_map_of_mem Document.price hgrp0)
    refine ⟨rfl, rfl, ?_, ?_, ?_⟩
    · intro doc hdoc hkd
      have hgrp : doc ∈ docs.filter (fun d' => docKey d' == k) :=
        List.mem_filter.mpr ⟨hdoc, by simp [hkd]⟩
      have hpm : doc.price ∈ (docs.filter (fun d' => docKey d' == k)).map Document.price :=
        List.mem_map_of_mem Document.price hgrp
      rw [hmin, hmax]
      exact ⟨qMinList_le _ _ hpm, le_qMaxList _ _ hpm⟩
    · obtain ⟨doc1, hdoc1grp, hpeq⟩ := List.mem_map.mp (qMinList_mem _ hne)
      obtain ⟨hdoc1, hbeq⟩ := List.mem_filter.mp hdoc1grp
      exact ⟨doc1, hdoc1, beq_iff_eq.mp hbeq, by rw [hmin, hpeq]⟩
    · obtain ⟨doc1, hdoc1grp, hpeq⟩ := List.mem_map.mp (qMaxList_mem _ hne)
      obtain ⟨hdoc1, hbeq⟩ := List.mem_filter.mp hdoc1grp
      exact ⟨doc1, hdoc1, beq_iff_eq.mp hbeq, by rw [hmax, hpeq]⟩

/-- A raw document of the aggregation example (spec section 8). -/
def exDoc (g : JVal) (p : ℚ) : Document :=
  { defaultDocument with
    geo := g
    price := p }

/-- The aggregation example of the spec: records `(k, 10)`, `(k, 30)`,
`(k2, 5)` where the keys differ in geo. -/
def exampleDocs : List Document :=
  [exDoc (.str "K") 10, exDoc (.str "K") 30, exDoc (.str "K2") 5]

/-- The composite key shared by the first two example records. -/
def exKeyA : AggKey := docKey (exDoc (.str "K") 10)

/-- The composite key of the third example record. -/
def exKeyB : AggKey := docKey (exDoc (.str "K2") 5)

/-- Witness for C2 at the spec's example: bucket for `k` has
totalPrice 40, minPrice 10, maxPrice 30, totalCount 2; bucket for `k2`
has totalPrice 5, minPrice 5, maxPrice 5, totalCount 1. -/
theorem C2_aggregate_buckets_witness :
    mkBucket exampleDocs exKeyA ∈ aggregate exampleDocs
    ∧ (mkBucket exampleDocs exKeyA).totalPrice
        = ((exampleDocs.filter
            (fun doc => docKey doc == (mkBucket exampleDocs exKeyA).key)).map
              Document.price).sum
    ∧ (mkBucket exampleDocs exKeyA).totalPrice = 40
    ∧ (mkBucket exampleDocs exKeyA).minPrice = 10
    ∧ (mkBucket exampleDocs exKeyA).maxPrice = 30
    ∧ (mkBucket exampleDocs exKeyA).totalCount = 2
    ∧ (mkBucket exampleDocs exKeyB).totalPrice = 5
    ∧ (mkBucket exampleDocs exKeyB).minPrice = 5
    ∧ (mkBucket exampleDocs exKeyB).maxPrice = 5
    ∧ (mkBucket exampleDocs exKeyB).totalCount = 1 := by
  have hmem : mkBucket exampleDocs exKeyA ∈ aggregate exampleDocs :=
    List.mem_map_of_mem (mkBucket exampleDocs) (by decide)
  have hsum := ((C2_aggregate_buckets exampleDocs).2.2
    (mkBucket exampleDocs exKeyA) hmem).1
  have h40 : (mkBucket exampleDocs exKeyA).totalPrice = 40 := by
    have he : (mkBucket exampleDocs exKeyA).totalPrice
        = List.sum [(10 : ℚ), 30] := rfl
    rw [he]
    norm_num
  have h5 : (mkBucket exampleDocs exKeyB).totalPrice = 5 := by
    have he : (mkBucket exampleDocs exKeyB).totalPrice = List.sum [(5 : ℚ)] := rfl
    rw [he]
    norm_num
  exact ⟨hmem, hsum, h40, rfl, rfl, rfl, h5, rfl, rfl, rfl⟩

/-- Unfolding of `findKey` on a non-empty store. -/
theorem findKey_cons (k : AggKey) (r : AggBucket) (rs : List AggBucket) :
    findKey k (r :: rs) = if r.key = k then some r else findKey k rs := by
  by_cases h : r.key = k
  · rw [if_pos h]
    exact List.find?_cons_of_pos _ (by simp [h])
  · rw [if_neg h]
    exact List.find?_cons_of_neg _ (by simp [h])

/-- Unfolding of `countKey` on a non-empty store. -/
theorem countKey_cons (k : AggKey) (r : AggBucket) (rs : List AggBucket) :
    countKey k (r :: rs) = (if r.key = k then 1 else 0) + countKey k rs := by
  unfold countKey
  by_cases h : r.key = k
  · rw [List.filter_cons_of_pos (by simp [h]), if_pos h, List.length_cons]
    omega
  · rw [List.filter_cons_of_neg (by simp [h]), if_neg h]
    omega

/-- Overwriting a record whose key already matches the bucket restores
the bucket itself. -/
theorem setVals_self_key (b r : AggBucket) (h : r.key = b.key) :
    setVals b r = b := by
  unfold setVals
  rw [h]

/-- After an upsert the first record with the bucket's key holds exactly
the bucket's key and values. -/
theorem findKey_applyUpdateOne_self (b : AggBucket) (st : List AggBucket) :
    findKey b.key (applyUpdateOne b st) = some b := by
  induction st with
  | nil =>
    show findKey b.key [b] = some b
    rw [findKey_cons, if_pos rfl]
  | cons r rs ih =>
    show findKey b.key
        (if r.key = b.key then setVals b r :: rs else r :: applyUpdateOne b rs)
      = some b
    by_cases h : r.key = b.key
    · rw [if_pos h, findKey_cons, if_pos (show (setVals b r).key = b.key from h),
        setVals_self_key b r h]
    · rw [if_neg h, findKey_cons, if_neg h, ih]

/-- An upsert for a different key does not change which record is first
for this key. -/
theorem findKey_applyUpdateOne_other (b : AggBucket) (k : AggKey)
    (hk : b.key ≠ k) (st : List AggBucket) :
    findKey k (applyUpdateOne b st) = findKey k st := by
  induction st with
  | nil =>
    show findKey k [b] = findKey k []
    rw [findKey_cons, if_neg hk]
  | cons r rs ih =>
    show findKey k
        (if r.key = b.key then setVals b r :: rs else r :: applyUpdateOne b rs)
      = findKey k (r :: rs)
    by_cases h : r.key = b.key
    · rw [if_pos h, findKey_cons, findKey_cons]
      by_cases h2 : r.key = k
      · exact absurd (h.symm.trans h2) hk
      · rw [if_neg (show ¬((setVals b r).key = k) from h2), if_neg h2]
    · rw [if_neg h, findKey_cons, findKey_cons]
      by_cases h2 : r.key = k
      · rw [if_pos h2, if_pos h2]
      · rw [if_neg h2, if_neg h2, ih]

/-- Upserting a bucket that is already the first record for its key is a
no-op on the whole store. -/
theorem applyUpdateOne_no_change (b : AggBucket) (st : List AggBucket)
    (h : findKey b.key st = some b) : applyUpdateOne b st = st := by
  induction st with
  | nil =>
    rw [show findKey b.key [] = none from rfl] at h
    cases h
  | cons r rs ih =>
    rw [findKey_cons] at h
    show (if r.key = b.key then setVals b r :: rs else r :: applyUpdateOne b rs)
      = r :: rs
    by_cases hr : r.key = b.key
    · rw [if_pos hr] at h ⊢
      rw [setVals_self_key b r hr, Option.some.inj h]
    · rw [if_neg hr] at h ⊢
      rw [ih h]

/-- Unfolding of an ordered bulk write. -/
theorem bulkWrite_cons (b : AggBucket) (bs : List AggBucket)
    (st : List AggBucket) :
    bulkWrite (b :: bs) st = bulkWrite bs (applyUpdateOne b st) := rfl

/-- A bulk write whose keys all differ from `k` does not change the
first record for `k`. -/
theorem findKey_bulkWrite_other (bs : List AggBucket) (k : AggKey)
    (h : ∀ b ∈ bs, b.key ≠ k) (st : List AggBucket) :
    findKey k (bulkWrite bs st) = findKey k st := by
  induction bs generalizing st with
  | nil => rfl
  | cons c cs ih =>
    rw [bulkWrite_cons, ih (fun b hb => h b (List.mem_cons_of_mem c hb)),
      findKey_applyUpdateOne_other c k (h c (List.mem_cons_self c cs))]

/-- A bulk write whose keys all differ from `k` does not change the
number of records for `k`. -/
theorem countKey_applyUpdateOne_other (b : AggBucket) (k : AggKey)
    (hk : b.key ≠ k) (st : List AggBucket) :
    countKey k (applyUpdateOne b st) = countKey k st := by
  induction st with
  | nil =>
    show countKey k [b] = countKey k []
    rw [countKey_cons, if_neg hk]
    omega
  | cons r rs ih =>
    show countKey k
        (if r.key = b.key then setVals b r :: rs else r :: applyUpdateOne b rs)
      = countKey k (r :: rs)
    by_cases h : r.key = b.key
    · rw [if_pos h, countKey_cons, countKey_cons]
      rfl
    · rw [if_neg h, countKey_cons, countKey_cons, ih]

/-- An upsert makes the count for the bucket's key one if it was zero
and keeps it otherwise. -/
theorem countKey_applyUpdateOne_self (b : AggBucket) (st : List AggBucket) :
    countKey b.key (applyUpdateOne b st)
      = if countKey b.key st = 0 then 1 else countKey b.key st := by
  induction st with
  | nil =>
    show countKey b.key [b] = if countKey b.key [] = 0 then 1 else countKey b.key []
    rw [countKey_cons, if_pos rfl, show countKey b.key [] = 0 from rfl]
    rfl
  | cons r rs ih =>
    show countKey b.key
        (if r.key = b.key then setVals b r :: rs else r :: applyUpdateOne b rs)
      = if countKey b.key (r :: rs) = 0 then 1 else countKey b.key (r :: rs)
    by_cases h : r.key = b.key
    · rw [if_pos h, countKey_cons, countKey_cons,
        if_pos (show (setVals b r).key = b.key from h), if_pos h,
        if_neg (by omega)]
    · rw [if_neg h, countKey_cons, if_neg h, countKey_cons, if_neg h, ih]
      simp

/-- Frame lemma for counts over a bulk write with other keys. -/
theorem countKey_bulkWrite_other (bs : List AggBucket) (k : AggKey)
    (h : ∀ b ∈ bs, b.key ≠ k) (st : List AggBucket) :
    countKey k (bulkWrite bs st) = countKey k st := by
  induction bs generalizing st with
  | nil => rfl
  | cons c cs ih =>
    rw [bulkWrite_cons, ih (fun b hb => h b (List.mem_cons_of_mem c hb)),
      countKey_applyUpdateOne_other c k (h c (List.mem_cons_self c cs))]

/-- After a bulk write with pairwise-distinct keys, each written bucket
is the first record for its key. -/
theorem findKey_bulkWrite_of_mem (bs : List AggBucket)
    (hn : (bs.map AggBucket.key).Nodup) (st : List AggBucket) :
    ∀ b ∈ bs, findKey b.key (bulkWrite bs st) = some b := by
  induction bs generalizing st with
  | nil =>
    intro b hb
    cases hb
  | cons c cs ih =>
    intro b hb
    rw [List.map_cons, List.nodup_cons] at hn
    rcases List.mem_cons.mp hb with rfl | hbcs
    · rw [bulkWrite_cons,
        findKey_bulkWrite_other cs b.key
          (fun b' hb' heq => hn.1 (heq ▸ List.mem_map_of_mem AggBucket.key hb'))
          (applyUpdateOne b st),
        findKey_applyUpdateOne_self]
    · rw [bulkWrite_cons]
      exact ih hn.2 (applyUpdateOne c st) b hbcs

/-- A bulk write whose buckets are already first-for-their-key with
identical values is a no-op. -/
theorem bulkWrite_stable (bs : List AggBucket) (st : List AggBucket)
    (h : ∀ b ∈ bs, findKey b.key st = some b) : bulkWrite bs st = st := by
  induction bs with
  | nil => rfl
  | cons c cs ih =>
    rw [bulkWrite_cons, applyUpdateOne_no_change c st (h c (List.mem_cons_self c cs))]
    exact ih (fun b hb => h b (List.mem_cons_of_mem c hb))

/-- C3: re-running Aggregator plus AggregateMerger on an unchanged raw
store leaves the aggregate store exactly as after the first run - the
second run's upserts all match existing records and set identical
values. -/
theorem C3_rerun_idempotent (src : List Document) (tgt : List AggBucket) :
    aggregate_and_upsert src (aggregate_and_upsert src tgt)
      = aggregate_and_upsert src tgt := by
  have hn : ((aggregate src).map AggBucket.key).Nodup := by
    rw [agg_keys]
    exact (src.map docKey).nodup_dedup
  exact bulkWrite_stable (aggregate src) _
    (findKey_bulkWrite_of_mem (aggregate src) hn tgt)

/-- C4 (amended): when the aggregate store holds at most one record for
the bucket's key (in particular exactly one, possibly stale, or none), a
merge run whose buckets include that key leaves exactly one record for
it, and the first record for the key holds exactly the fresh bucket.
The rerun never inserts when a match exists; but a store that already
holds duplicate records for the key keeps them - see the
counterexample. -/
theorem C4_upsert_fresh_unique (src : List Document) (tgt : List AggBucket)
    (b : AggBucket) (hb : b ∈ aggregate src) (hc : countKey b.key tgt ≤ 1) :
    countKey b.key (aggregate_and_upsert src tgt) = 1
    ∧ findKey b.key (aggregate_and_upsert src tgt) = some b := by
  have hn : ((aggregate src).map AggBucket.key).Nodup := by
    rw [agg_keys]
    exact (src.map docKey).nodup_dedup
  obtain ⟨l₁, l₂, hsplit⟩ := List.mem_iff_append.mp hb
  rw [hsplit] at hn
  rw [List.map_append, List.map_cons] at hn
  obtain ⟨hn1, hn2, hdisj⟩ := List.nodup_append.mp hn
  obtain ⟨hkey2, _⟩ := List.nodup_cons.mp hn2
  have h1 : ∀ b' ∈ l₁, b'.key ≠ b.key := fun b' hb' heq =>
    hdisj (heq ▸ List.mem_map_of_mem AggBucket.key hb')
      (List.mem_cons_self b.key _)
  have h2 : ∀ b' ∈ l₂, b'.key ≠ b.key := fun b' hb' heq =>
    hkey2 (heq ▸ List.mem_map_of_mem AggBucket.key hb')
  have hrun : aggregate_and_upsert src tgt
      = bulkWrite l₂ (applyUpdateOne b (bulkWrite l₁ tgt)) := by
    unfold aggregate_and_upsert
    rw [hsplit]
    unfold bulkWrite
    rw [List.foldl_append]
    rfl
  rw [hrun]
  have hc1 : countKey b.key (bulkWrite l₁ tgt) ≤ 1 := by
    rw [countKey_bulkWrite_other l₁ b.key h1 tgt]
    exact hc
  constructor
  · rw [countKey_bulkWrite_other l₂ b.key h2, countKey_applyUpdateOne_self]
    by_cases h0 : countKey b.key (bulkWrite l₁ tgt) = 0
    · rw [if_pos h0]
    · rw [if_neg h0]
      omega
  · rw [findKey_bulkWrite_other l₂ b.key h2, findKey_applyUpdateOne_self]

/-- The raw document feeding the C4 example: all fields default except
price 7. -/
def c4Doc : Document := { defaultDocument with price := 7 }

/-- The composite key of the C4 example. -/
def c4Key : AggKey := docKey c4Doc

/-- A stale aggregate record for the C4 key. -/
def staleA : AggBucket :=
  { key := c4Key, totalPrice := 1, minPrice := 1, maxPrice := 1, totalCount := 1 }

/-- A second, duplicate stale aggregate record for the C4 key. -/
def staleB : AggBucket :=
  { key := c4Key, totalPrice := 2, minPrice := 2, maxPrice := 2, totalCount := 2 }

/-- C4 counterexample: a store that already holds two records for the
key still holds two after a merge run with fresh values for that key
(the claim's "exactly one record" fails): `UpdateOne` touches only the
first match and never deduplicates. -/
theorem C4_duplicate_key_counterexample :
    countKey c4Key [staleA, staleB] = 2
    ∧ countKey c4Key (aggregate_and_upsert [c4Doc] [staleA, staleB]) = 2 :=
  ⟨rfl, rfl⟩

/-- Witness for C4: with exactly one stale record for the key, the merge
leaves exactly one record holding the fresh bucket. -/
theorem C4_upsert_fresh_unique_witness :
    countKey c4Key (aggregate_and_upsert [c4Doc] [staleA]) = 1
    ∧ findKey c4Key (aggregate_and_upsert [c4Doc] [staleA])
        = some (mkBucket [c4Doc] c4Key) :=
  C4_upsert_fresh_unique [c4Doc] [staleA] (mkBucket [c4Doc] c4Key)
    (List.mem_singleton_self _) (by decide)

/-- Witness for C10 at a concrete line with an unparseable nested
document. -/
theorem C10_nested_malformed_skipped_witness :
    normalizeLine "\x7b\"bidRequestString\": \"xx\"\x7d" = .ok none
    ∧ parse_and_insert ["\x7b\"bidRequestString\": \"xx\"\x7d", "\x7b\x7d"] 3
        = parse_and_insert ["\x7b\x7d"] 3 :=
  C10_nested_malformed_skipped "\x7b\"bidRequestString\": \"xx\"\x7d"
    (.cons "bidRequestString" (.str "xx") .nil) "xx" .jsonDecodeError
    rfl rfl (by decide) rfl [] ["\x7b\x7d"] 3

end Analytics
